import Mathlib

/-!
Verification of the ECG analysis page of `medical_app.py`: the labeled-rectangle
store with its linear undo/redo history, the display-coordinate conversion used
when cropping region images, the HSV background separation, the per-column
signal digitizers, and the collision-avoiding export file naming.

Conventions of the embedding: Python floats are modelled as rationals, Python
`int()` as truncation toward zero, the binary masks produced by thresholding as
lists of boolean columns, and the filesystem seen by the export loops as the
list of file names already present in the target directory.
-/

namespace MedicalApp

/-- A labeled rectangle as stored in the global `rectangles` list:
`(x1, y1, x2, y2, name)` in scene (display) coordinates. -/
structure Region where
  x1 : ℚ
  y1 : ℚ
  x2 : ℚ
  y2 : ℚ
  name : String
deriving DecidableEq, Repr

/-- The mutable module-level state used by `ECGAnalysisPage`: the live
`rectangles` list, `rectangle_history`, `current_history_index` (an `Int`,
as in Python — the module default is `-1`, though `ECGAnalysisPage.__init__`
sets it to `0` before any operation runs), and `selected_rectangle`. -/
structure ECGState where
  rectangles : List Region
  history : List (List Region)
  histIdx : Int
  selected : Option Region
deriving DecidableEq, Repr

/-- The state in force before any user operation can fire: the module-level
defaults `rectangles = []`, `selected_rectangle = None`, after
`ECGAnalysisPage.__init__` has seeded the history with
`rectangle_history = [[] if not rectangles else rectangles.copy()]` (one
snapshot equal to the live list, here `[]`) and `current_history_index = 0`.
Every operation of the claims is a method of this page, so `__init__` has
always run first. -/
def initState : ECGState :=
  { rectangles := [], history := [[]], histIdx := 0, selected := none }

/-- `ECGAnalysisPage.add_to_history`: drop any future history
(`rectangle_history[:current_history_index + 1]`), append a copy of the live
list, and point the index at the new end. -/
def add_to_history (s : ECGState) : ECGState :=
  { s with
    history := s.history.take (s.histIdx + 1).toNat ++ [s.rectangles],
    histIdx := ((s.history.take (s.histIdx + 1).toNat ++ [s.rectangles]).length : Int) - 1 }

/-- The containment test of `eventFilter`:
`x1 <= pos.x() <= x2 and y1 <= pos.y() <= y2`. -/
def containsPt (r : Region) (px py : ℚ) : Bool :=
  decide (r.x1 ≤ px) && decide (px ≤ r.x2) && decide (r.y1 ≤ py) && decide (py ≤ r.y2)

/-- The rectangle the press handler of `eventFilter` acts on: the first
rectangle of the list, in insertion order, that contains the click point. -/
def hitRect (rects : List Region) (px py : ℚ) : Option Region :=
  rects.find? (fun r => containsPt r px py)

/-- `eventFilter` mouse-press logic: if some rectangle contains the point,
delete the first such rectangle and commit a snapshot; otherwise leave the
state alone and start a draw gesture (the returned flag is `drawing`). -/
def clickPressResult (s : ECGState) (px py : ℚ) : ECGState × Bool :=
  match hitRect s.rectangles px py with
  | some r => (add_to_history { s with rectangles := s.rectangles.erase r }, false)
  | none => (s, true)

/-- The user operations on the store that the claims quantify over. -/
inductive ECGOp where
  | addRegion (r : Region)
  | clickPress (px py : ℚ)
  | deleteSelected
  | undo
  | redo
deriving DecidableEq, Repr

/-- One step of the store.
* `addRegion`: the mouse-release branch of `eventFilter` — with a non-empty
  name the region is appended and `add_to_history` runs; an empty name leaves
  everything unchanged (`if name:`). No label-uniqueness check is performed.
* `clickPress`: the mouse-press branch (delete first hit and commit, or no
  state change when the press starts a draw gesture).
* `deleteSelected`: `delete_selected` — guarded by
  `if selected_rectangle and selected_rectangle in rectangles`; it removes the
  selection from the live list and does NOT call `add_to_history`.
* `undo` / `redo`: `undo_action` / `redo_action` with their boundary guards. -/
def applyOp (s : ECGState) : ECGOp → ECGState
  | .addRegion r =>
      if r.name = "" then s
      else add_to_history { s with rectangles := s.rectangles ++ [r] }
  | .clickPress px py => (clickPressResult s px py).1
  | .deleteSelected =>
      match s.selected with
      | some r =>
          if r ∈ s.rectangles then
            { s with rectangles := s.rectangles.erase r, selected := none }
          else s
      | none => s
  | .undo =>
      if 0 < s.histIdx then
        { s with histIdx := s.histIdx - 1,
                 rectangles := s.history.getD (s.histIdx - 1).toNat [] }
      else s
  | .redo =>
      if s.histIdx < (s.history.length : Int) - 1 then
        { s with histIdx := s.histIdx + 1,
                 rectangles := s.history.getD (s.histIdx + 1).toNat [] }
      else s

/-- Run a sequence of operations from a state. -/
def applyOps (s : ECGState) (ops : List ECGOp) : ECGState :=
  ops.foldl applyOp s

/-- The synchronization property the spec asserts: the history index is in
range (nonnegative) and the live list is exactly the history entry at the
current index. -/
def HistoryInvariant (s : ECGState) : Prop :=
  0 ≤ s.histIdx ∧ s.history.get? s.histIdx.toNat = some s.rectangles

/-- Python `int()` on a float: truncation toward zero. For `0 ≤ q` this is
`⌊q⌋ = q.num / q.den`; a negative value is truncated up toward zero. -/
def pyInt (q : ℚ) : Int :=
  if 0 ≤ q then q.num / (q.den : Int) else -((-q).num / (((-q).den : Int)))

/-- `open_image`: the display size after loading — width fixed at 1260,
`new_height = int(new_width / aspect_ratio)` with `aspect_ratio = w / h`. -/
def resizedSizeOf (ow oh : ℕ) : ℕ × ℕ :=
  (1260, (pyInt (1260 / ((ow : ℚ) / (oh : ℚ)))).toNat)

/-- The coordinate conversion of `save_all_areas` (also used verbatim in
`ObservationDialog.on_selection_changed`, `on_save` and
`DigitalizeDialog.preview_selected`):
`x_resized = int(x * img_resized_size[0] / img_original_size[1])` and
`y_resized = int(y * img_resized_size[1] / img_original_size[0])`, where
`img_original_size = (width, height)` — so the x axis is scaled by
resized-width over original-HEIGHT and the y axis by resized-height over
original-WIDTH. -/
def convertRect (r : Region) (origSize resizedSize : ℕ × ℕ) : Int × Int × Int × Int :=
  (pyInt (r.x1 * (resizedSize.1 : ℚ) / (origSize.2 : ℚ)),
   pyInt (r.y1 * (resizedSize.2 : ℚ) / (origSize.1 : ℚ)),
   pyInt (r.x2 * (resizedSize.1 : ℚ) / (origSize.2 : ℚ)),
   pyInt (r.y2 * (resizedSize.2 : ℚ) / (origSize.1 : ℚ)))

/-- `cv2.inRange` on one 8-bit HSV triple: inclusive componentwise bounds. -/
def inRangeHSV (lo hi p : ℕ × ℕ × ℕ) : Bool :=
  decide (lo.1 ≤ p.1) && decide (p.1 ≤ hi.1) &&
  decide (lo.2.1 ≤ p.2.1) && decide (p.2.1 ≤ hi.2.1) &&
  decide (lo.2.2 ≤ p.2.2) && decide (p.2.2 ≤ hi.2.2)

/-- `lower_black = np.array([0, 0, 0])`. -/
def lowerBlack : ℕ × ℕ × ℕ := (0, 0, 0)

/-- `upper_black = np.array([180, 255, 220])`. -/
def upperBlack : ℕ × ℕ × ℕ := (180, 255, 220)

/-- The per-pixel effect of `remove_background`: a pixel whose HSV triple is
in range ends up pure black (`black_on_white[mask_black == 255] = 0`), any
other pixel ends up pure white (`cv2.add` with the white background). The
output pixel depends only on the pixel's HSV value. -/
def removeBgPixel (hsv : ℕ × ℕ × ℕ) : ℕ × ℕ × ℕ :=
  if inRangeHSV lowerBlack upperBlack hsv then (0, 0, 0) else (255, 255, 255)

/-- `remove_background` applied to a whole raster of HSV triples. -/
def removeBg (hsvRaster : List (List (ℕ × ℕ × ℕ))) : List (List (ℕ × ℕ × ℕ)) :=
  hsvRaster.map (fun row => row.map removeBgPixel)

/-- The per-pixel effect of the separation step inside
`DigitalizeDialog.digitalize_selected`
(`result = cv2.bitwise_and(img, img, mask=mask); result[mask == 0] = 255`):
a pixel in range keeps its original BGR value, a pixel out of range becomes
pure white. -/
def digSelectPixel (bgr hsv : ℕ × ℕ × ℕ) : ℕ × ℕ × ℕ :=
  if inRangeHSV lowerBlack upperBlack hsv then bgr else (255, 255, 255)

/-- Indices of `true` entries of a column, starting at offset `i`
(`np.where(column == 255)[0]` returns them in increasing order). -/
def fgRowsAux : List Bool → ℕ → List ℕ
  | [], _ => []
  | b :: bs, i => if b then i :: fgRowsAux bs (i + 1) else fgRowsAux bs (i + 1)

/-- The foreground row indices of one column, in increasing order. -/
def foregroundRows (col : List Bool) : List ℕ := fgRowsAux col 0

/-- The representative row chosen by `ECGAnalysisPage.digitalize_lead`:
`y = (y_indices[0] + y_indices[-1]) // 2` when the column has foreground
pixels, nothing otherwise. -/
def repRow (col : List Bool) : Option ℕ :=
  match (foregroundRows col).head?, (foregroundRows col).getLast? with
  | some a, some b => some ((a + b) / 2)
  | _, _ => none

/-- The representative row chosen by `DigitalizeDialog.digitalize_selected`:
`y = np.mean(points)` — the arithmetic mean of all foreground rows. -/
def meanRow (col : List Bool) : Option ℚ :=
  match foregroundRows col with
  | [] => none
  | rows => some ((rows.map (fun r => (r : ℚ))).sum / (rows.length : ℚ))

/-- `max_amplitude = 1` in `digitalize_lead`. -/
def maxAmplitude : ℚ := 1

/-- `min_amplitude = -1` in `digitalize_lead`. -/
def minAmplitude : ℚ := -1

/-- `time_scale = 0.01` in `digitalize_lead`. -/
def timeScale : ℚ := 1 / 100

/-- One output entry of `digitalize_lead` for column `x` with representative
row `y` and image height `H`:
`(x * time_scale, max_amplitude - (max_amplitude - min_amplitude) * (y / height))`. -/
def columnSample (x y H : ℕ) : ℚ × ℚ :=
  ((x : ℚ) * timeScale,
   maxAmplitude - (maxAmplitude - minAmplitude) * ((y : ℚ) / (H : ℚ)))

/-- The column loop of `digitalize_lead`, with `x` the index of the first
column of the remaining list. Columns without foreground pixels contribute no
entry. -/
def digitalizeGo (H : ℕ) : List (List Bool) → ℕ → List (ℚ × ℚ)
  | [], _ => []
  | col :: rest, x =>
      match repRow col with
      | some y => columnSample x y H :: digitalizeGo H rest (x + 1)
      | none => digitalizeGo H rest (x + 1)

/-- `digitalize_lead` signal extraction on a binary mask given as its list of
columns (each column listing its pixels top to bottom); `H` is the mask
height. -/
def digitalizeLead (cols : List (List Bool)) (H : ℕ) : List (ℚ × ℚ) :=
  digitalizeGo H cols 0

/-- The collision loop of `save_all_areas`: starting from `counter`, try
`<base>_<counter>.png`, `<base>_<counter+1>.png`, ... until a name is not in
the directory. `fuel` bounds the search so the function is total; `none` means
the fuel ran out. -/
def saveAllLoop (existing : List String) (base : String) : ℕ → ℕ → Option String
  | 0, _ => none
  | fuel + 1, counter =>
      let candidate := base ++ "_" ++ toString counter ++ ".png"
      if candidate ∈ existing then saveAllLoop existing base fuel (counter + 1)
      else some candidate

/-- File name chosen by `save_all_areas` for a region named `base` when the
directory already contains `existing`: `<base>.png` if free, otherwise the
first free `<base>_<n>.png` with `n = 1, 2, ...`. -/
def saveAllName (existing : List String) (base : String) : Option String :=
  let plain := base ++ ".png"
  if plain ∈ existing then saveAllLoop existing base (existing.length + 1) 1
  else some plain

/-- The collision loop of `ObservationDialog.on_save`: it retries with
`unique_name = f"{name}_copy{count}"`, so the candidates are
`<base>_copy1.png`, `<base>_copy2.png`, ... The result is the pair
`(unique_name, filename)`. -/
def onSaveLoop (existing : List String) (base : String) : ℕ → ℕ → Option (String × String)
  | 0, _ => none
  | fuel + 1, count =>
      let unique := base ++ "_copy" ++ toString count
      let candidate := unique ++ ".png"
      if candidate ∈ existing then onSaveLoop existing base fuel (count + 1)
      else some (unique, candidate)

/-- Name pair chosen by `ObservationDialog.on_save` for label `base` against
directory contents `existing`. -/
def onSaveName (existing : List String) (base : String) : Option (String × String) :=
  let plain := base ++ ".png"
  if plain ∈ existing then onSaveLoop existing base (existing.length + 1) 1
  else some (base, plain)

/-! ### Undo/redo history (claims C1, C2, C3) -/

/-- Committing a snapshot yields a nonnegative index pointing at the just-saved
copy of the live list; the live list and the selection are untouched. -/
theorem add_to_history_inv (s : ECGState) :
    0 ≤ (add_to_history s).histIdx ∧
    (add_to_history s).history.get? (add_to_history s).histIdx.toNat
      = some (add_to_history s).rectangles ∧
    (add_to_history s).selected = s.selected := by
  have hlen : (s.history.take (s.histIdx + 1).toNat ++ [s.rectangles]).length
      = (s.history.take (s.histIdx + 1).toNat).length + 1 := by simp
  refine ⟨?_, ?_, rfl⟩
  · show (0:Int) ≤ ((s.history.take (s.histIdx + 1).toNat ++ [s.rectangles]).length : Int) - 1
    rw [hlen]
    omega
  · show (s.history.take (s.histIdx + 1).toNat ++ [s.rectangles]).get?
        (((s.history.take (s.histIdx + 1).toNat ++ [s.rectangles]).length : Int) - 1).toNat
      = some s.rectangles
    rw [hlen]
    have h2 : ((((s.history.take (s.histIdx + 1).toNat).length + 1 : ℕ) : Int) - 1).toNat
        = (s.history.take (s.histIdx + 1).toNat).length := by omega
    rw [h2]
    exact List.get?_concat_length _ _

/-- Every single operation keeps `selected_rectangle = None` and preserves the
live-list/history synchronization. -/
theorem applyOp_preserves (s : ECGState) (op : ECGOp)
    (hsel : s.selected = none) (hinv : HistoryInvariant s) :
    (applyOp s op).selected = none ∧ HistoryInvariant (applyOp s op) := by
  cases op with
  | addRegion r =>
    by_cases h : r.name = ""
    · have hstep : applyOp s (.addRegion r) = s := by simp [applyOp, h]
      rw [hstep]; exact ⟨hsel, hinv⟩
    · have hstep : applyOp s (.addRegion r)
          = add_to_history { s with rectangles := s.rectangles ++ [r] } := by
        simp [applyOp, h]
      rw [hstep]
      have hs := add_to_history_inv { s with rectangles := s.rectangles ++ [r] }
      exact ⟨hs.2.2.trans hsel, hs.1, hs.2.1⟩
  | clickPress px py =>
    cases hh : hitRect s.rectangles px py with
    | none =>
      have hstep : applyOp s (.clickPress px py) = s := by
        simp [applyOp, clickPressResult, hh]
      rw [hstep]; exact ⟨hsel, hinv⟩
    | some r =>
      have hstep : applyOp s (.clickPress px py)
          = add_to_history { s with rectangles := s.rectangles.erase r } := by
        simp [applyOp, clickPressResult, hh]
      rw [hstep]
      have hs := add_to_history_inv { s with rectangles := s.rectangles.erase r }
      exact ⟨hs.2.2.trans hsel, hs.1, hs.2.1⟩
  | deleteSelected =>
    have hstep : applyOp s .deleteSelected = s := by simp [applyOp, hsel]
    rw [hstep]; exact ⟨hsel, hinv⟩
  | undo =>
    obtain ⟨hpos, hget⟩ := hinv
    by_cases h : 0 < s.histIdx
    · have hlen : s.histIdx.toNat < s.history.length := (List.get?_eq_some.mp hget).1
      have hlt : (s.histIdx - 1).toNat < s.history.length := by omega
      have hstep : applyOp s .undo
          = { s with histIdx := s.histIdx - 1,
                     rectangles := s.history.getD (s.histIdx - 1).toNat [] } := by
        simp [applyOp, h]
      rw [hstep]
      refine ⟨hsel, show (0:Int) ≤ s.histIdx - 1 by omega, ?_⟩
      show s.history.get? (s.histIdx - 1).toNat
          = some (s.history.getD (s.histIdx - 1).toNat [])
      rw [List.getD_eq_get?, List.get?_eq_get hlt]
      rfl
    · have hstep : applyOp s .undo = s := by simp [applyOp, h]
      rw [hstep]; exact ⟨hsel, hpos, hget⟩
  | redo =>
    obtain ⟨hpos, hget⟩ := hinv
    by_cases h : s.histIdx < (s.history.length : Int) - 1
    · have hlen : s.histIdx.toNat < s.history.length := (List.get?_eq_some.mp hget).1
      have hlt : (s.histIdx + 1).toNat < s.history.length := by omega
      have hstep : applyOp s .redo
          = { s with histIdx := s.histIdx + 1,
                     rectangles := s.history.getD (s.histIdx + 1).toNat [] } := by
        simp [applyOp, h]
      rw [hstep]
      refine ⟨hsel, show (0:Int) ≤ s.histIdx + 1 by omega, ?_⟩
      show s.history.get? (s.histIdx + 1).toNat
          = some (s.history.getD (s.histIdx + 1).toNat [])
      rw [List.getD_eq_get?, List.get?_eq_get hlt]
      rfl
    · have hstep : applyOp s .redo = s := by simp [applyOp, h]
      rw [hstep]; exact ⟨hsel, hpos, hget⟩

/-- `applyOp_preserves` extended to whole operation sequences. -/
theorem applyOps_preserves (ops : List ECGOp) (s : ECGState)
    (hsel : s.selected = none) (hinv : HistoryInvariant s) :
    (applyOps s ops).selected = none ∧ HistoryInvariant (applyOps s ops) := by
  induction ops generalizing s with
  | nil => exact ⟨hsel, hinv⟩
  | cons op ops ih =>
    have hstep := applyOp_preserves s op hsel hinv
    exact ih (applyOp s op) hstep.1 hstep.2

/-- Claim C1. For every sequence of add (event-filter draw), click-delete,
delete-selected, undo and redo operations, starting from the state
`ECGAnalysisPage.__init__` establishes (one empty snapshot in the history,
index 0), after each operation the live `rectangles` list is exactly
`rectangle_history[current_history_index]`. (`delete_selected` does not
commit a snapshot, but it also never mutates the list: nothing in the module
ever sets `selected_rectangle`, which the invariant carries along.) -/
theorem rectangles_match_history (ops : List ECGOp) :
    HistoryInvariant (applyOps initState ops) :=
  (applyOps_preserves ops initState rfl ⟨by decide, rfl⟩).2

/-- Claim C2. Committing a new edit after an undo discards the redo future:
for any regions `a`, `b`, `c` with non-empty names, after
`add(a); add(b); undo(); add(c)` a `redo()` leaves the whole module state —
in particular the live rectangle list and the history position — unchanged. -/
theorem redo_noop_after_commit (a b c : Region)
    (ha : a.name ≠ "") (hb : b.name ≠ "") (hc : c.name ≠ "") :
    applyOps initState
        [ECGOp.addRegion a, ECGOp.addRegion b, ECGOp.undo, ECGOp.addRegion c, ECGOp.redo]
      = applyOps initState
        [ECGOp.addRegion a, ECGOp.addRegion b, ECGOp.undo, ECGOp.addRegion c] := by
  simp [applyOps, applyOp, add_to_history, initState, ha, hb, hc, List.take]

/-- Claim C2, witness at concrete regions. -/
theorem redo_noop_after_commit_witness :
    applyOps initState
        [ECGOp.addRegion ⟨0, 0, 1, 1, "A"⟩, ECGOp.addRegion ⟨0, 0, 1, 1, "B"⟩, ECGOp.undo,
         ECGOp.addRegion ⟨0, 0, 1, 1, "C"⟩, ECGOp.redo]
      = applyOps initState
        [ECGOp.addRegion ⟨0, 0, 1, 1, "A"⟩, ECGOp.addRegion ⟨0, 0, 1, 1, "B"⟩, ECGOp.undo,
         ECGOp.addRegion ⟨0, 0, 1, 1, "C"⟩] :=
  redo_noop_after_commit ⟨0, 0, 1, 1, "A"⟩ ⟨0, 0, 1, 1, "B"⟩ ⟨0, 0, 1, 1, "C"⟩
    (by decide) (by decide) (by decide)

/-- Claim C3, counterexample to the claim as stated: adding a region labeled
"A" when the list already holds a region labeled "A" does NOT fail and does
NOT leave the store unchanged — both the live list and the history change. -/
theorem duplicate_label_counterexample :
    (applyOp (applyOps initState [ECGOp.addRegion ⟨0, 0, 1, 1, "A"⟩])
        (ECGOp.addRegion ⟨2, 2, 3, 3, "A"⟩)).rectangles
      ≠ (applyOps initState [ECGOp.addRegion ⟨0, 0, 1, 1, "A"⟩]).rectangles ∧
    (applyOp (applyOps initState [ECGOp.addRegion ⟨0, 0, 1, 1, "A"⟩])
        (ECGOp.addRegion ⟨2, 2, 3, 3, "A"⟩)).history
      ≠ (applyOps initState [ECGOp.addRegion ⟨0, 0, 1, 1, "A"⟩]).history := by
  decide

/-- Claim C3, amended. The add path performs no label-uniqueness validation:
even when some existing region already carries the new region's (non-empty)
label, the region is appended to the live list and a new snapshot is
committed, with the history index at the new end. -/
theorem duplicate_label_appends (s : ECGState) (r : Region) (hname : r.name ≠ "")
    (hdup : ∃ q ∈ s.rectangles, q.name = r.name) :
    (applyOp s (ECGOp.addRegion r)).rectangles = s.rectangles ++ [r] ∧
    (applyOp s (ECGOp.addRegion r)).history
      = s.history.take (s.histIdx + 1).toNat ++ [s.rectangles ++ [r]] ∧
    (applyOp s (ECGOp.addRegion r)).histIdx
      = ((s.history.take (s.histIdx + 1).toNat).length : Int) := by
  have hstep : applyOp s (.addRegion r)
      = add_to_history { s with rectangles := s.rectangles ++ [r] } := by
    simp [applyOp, hname]
  rw [hstep]
  refine ⟨rfl, rfl, ?_⟩
  show ((s.history.take (s.histIdx + 1).toNat ++ [s.rectangles ++ [r]]).length : Int) - 1
      = ((s.history.take (s.histIdx + 1).toNat).length : Int)
  simp

/-- Claim C3, witness at a concrete duplicate-label add. -/
theorem duplicate_label_appends_witness :
    (applyOp (applyOps initState [ECGOp.addRegion ⟨0, 0, 1, 1, "A"⟩])
        (ECGOp.addRegion ⟨2, 2, 3, 3, "A"⟩)).rectangles
      = (applyOps initState [ECGOp.addRegion ⟨0, 0, 1, 1, "A"⟩]).rectangles
        ++ [⟨2, 2, 3, 3, "A"⟩] ∧
    (applyOp (applyOps initState [ECGOp.addRegion ⟨0, 0, 1, 1, "A"⟩])
        (ECGOp.addRegion ⟨2, 2, 3, 3, "A"⟩)).history
      = (applyOps initState [ECGOp.addRegion ⟨0, 0, 1, 1, "A"⟩]).history.take
          ((applyOps initState [ECGOp.addRegion ⟨0, 0, 1, 1, "A"⟩]).histIdx + 1).toNat
        ++ [(applyOps initState [ECGOp.addRegion ⟨0, 0, 1, 1, "A"⟩]).rectangles
          ++ [⟨2, 2, 3, 3, "A"⟩]] ∧
    (applyOp (applyOps initState [ECGOp.addRegion ⟨0, 0, 1, 1, "A"⟩])
        (ECGOp.addRegion ⟨2, 2, 3, 3, "A"⟩)).histIdx
      = (((applyOps initState [ECGOp.addRegion ⟨0, 0, 1, 1, "A"⟩]).history.take
          ((applyOps initState [ECGOp.addRegion ⟨0, 0, 1, 1, "A"⟩]).histIdx + 1).toNat).length
        : Int) :=
  duplicate_label_appends (applyOps initState [ECGOp.addRegion ⟨0, 0, 1, 1, "A"⟩])
    ⟨2, 2, 3, 3, "A"⟩ (by decide) (by decide)

/-! ### Coordinate conversion (claim C4) -/

/-- Claim C4, counterexample to the claim as stated: for a 2000×1000 native
image displayed at its computed size 1260×630, the region drawn from display
point (100,100) to (300,200) does NOT get the claimed floor-scaled native
bounds 158..476 on the x axis — the code maps display x=100 to 126, because
it multiplies by `img_resized_size[0] / img_original_size[1]`, i.e.
resized-width over original-height. -/
theorem convert_not_native_counterexample :
    (convertRect ⟨100, 100, 300, 200, "lead1"⟩ (2000, 1000) (resizedSizeOf 2000 1000)).1
      ≠ 158 ∧
    (convertRect ⟨100, 100, 300, 200, "lead1"⟩ (2000, 1000) (resizedSizeOf 2000 1000)).2.2.1
      ≠ 476 ∧
    (convertRect ⟨100, 100, 300, 200, "lead1"⟩ (2000, 1000) (resizedSizeOf 2000 1000)).1
      = 126 := by
  norm_num [convertRect, pyInt, resizedSizeOf]

/-- Claim C4, amended. The conversion in `save_all_areas` is not a
display-to-native conversion: it scales the x coordinates by
resized-width / original-height and the y coordinates by
resized-height / original-width, truncating with `int()`. For a 2000×1000
native image (displayed at 1260×630) the region (100,100)–(300,200) maps to
x bounds `int(100·1260/1000) = 126 .. int(300·1260/1000) = 378` and y bounds
`int(100·630/2000) = 31 .. int(200·630/2000) = 63`. -/
theorem convert_scales_by_swapped_axes :
    resizedSizeOf 2000 1000 = (1260, 630) ∧
    convertRect ⟨100, 100, 300, 200, "lead1"⟩ (2000, 1000) (1260, 630) = (126, 31, 378, 63) ∧
    pyInt ((100 : ℚ) * 1260 / 1000) = 126 ∧
    pyInt ((100 : ℚ) * 630 / 2000) = 31 ∧
    pyInt ((300 : ℚ) * 1260 / 1000) = 378 ∧
    pyInt ((200 : ℚ) * 630 / 2000) = 63 := by
  norm_num [convertRect, pyInt, resizedSizeOf, Prod.ext_iff]
  decide

/-! ### Signal digitizers (claims C5, C6, C10) -/

/-- Foreground row indices are at least the starting offset. -/
theorem mem_fgRowsAux_lb : ∀ (bs : List Bool) (i r : ℕ), r ∈ fgRowsAux bs i → i ≤ r := by
  intro bs
  induction bs with
  | nil => intro i r h; simp [fgRowsAux] at h
  | cons b bs ih =>
    intro i r h
    cases b with
    | true =>
      simp only [fgRowsAux, if_pos] at h
      rcases List.mem_cons.mp h with h | h
      · omega
      · have := ih (i + 1) r h; omega
    | false =>
      simp only [fgRowsAux, if_neg] at h
      have := ih (i + 1) r h; omega

/-- Foreground row indices stay below offset plus column length. -/
theorem mem_fgRowsAux_ub : ∀ (bs : List Bool) (i r : ℕ),
    r ∈ fgRowsAux bs i → r < i + bs.length := by
  intro bs
  induction bs with
  | nil => intro i r h; simp [fgRowsAux] at h
  | cons b bs ih =>
    intro i r h
    simp only [List.length_cons]
    cases b with
    | true =>
      simp only [fgRowsAux, if_pos] at h
      rcases List.mem_cons.mp h with h | h
      · omega
      · have := ih (i + 1) r h; omega
    | false =>
      simp only [fgRowsAux, if_neg] at h
      have := ih (i + 1) r h; omega

/-- The head of the foreground-row list is its minimum (`y_indices[0]`). -/
theorem fgRowsAux_head_min : ∀ (bs : List Bool) (i a : ℕ),
    (fgRowsAux bs i).head? = some a →
    a ∈ fgRowsAux bs i ∧ ∀ r ∈ fgRowsAux bs i, a ≤ r := by
  intro bs
  induction bs with
  | nil => intro i a h; simp [fgRowsAux] at h
  | cons b bs ih =>
    intro i a h
    cases b with
    | true =>
      simp only [fgRowsAux, if_pos, List.head?_cons, Option.some.injEq] at h
      constructor
      · simp only [fgRowsAux, if_pos]
        exact List.mem_cons.mpr (Or.inl h.symm)
      · intro r hr
        simp only [fgRowsAux, if_pos] at hr
        rcases List.mem_cons.mp hr with h1 | h1
        · omega
        · have := mem_fgRowsAux_lb bs (i + 1) r h1; omega
    | false =>
      simp only [fgRowsAux, if_neg] at h ⊢
      exact ih (i + 1) a h

/-- The last element of the foreground-row list is its maximum
(`y_indices[-1]`). -/
theorem fgRowsAux_getLast_max : ∀ (bs : List Bool) (i m : ℕ),
    (fgRowsAux bs i).getLast? = some m →
    m ∈ fgRowsAux bs i ∧ ∀ r ∈ fgRowsAux bs i, r ≤ m := by
  intro bs
  induction bs with
  | nil => intro i m h; simp [fgRowsAux] at h
  | cons b bs ih =>
    intro i m h
    cases b with
    | true =>
      simp only [fgRowsAux, if_pos] at h ⊢
      cases hrest : fgRowsAux bs (i + 1) with
      | nil =>
        rw [hrest] at h
        simp only [List.getLast?_singleton, Option.some.injEq] at h
        constructor
        · exact List.mem_cons.mpr (Or.inl h.symm)
        · intro r hr
          simp at hr
          omega
      | cons c cs =>
        rw [hrest, List.getLast?_cons_cons] at h
        have hmax := ih (i + 1) m (by rw [hrest]; exact h)
        rw [hrest] at hmax
        refine ⟨List.mem_cons_of_mem _ hmax.1, ?_⟩
        intro r hr
        rcases List.mem_cons.mp hr with h1 | h1
        · have hm := mem_fgRowsAux_lb bs (i + 1) m (by rw [hrest]; exact hmax.1)
          omega
        · exact hmax.2 r h1
    | false =>
      simp only [fgRowsAux, if_neg] at h ⊢
      exact ih (i + 1) m h

/-- Claim C5, amended. The `digitalize_lead` digitizer picks, for every
column with foreground pixels, the integer midpoint `(a + b) / 2` of `a` and
`b` where `a` is genuinely the minimum and `b` the maximum foreground row
index of that column. (The `DigitalizeDialog.digitalize_selected` digitizer
instead uses the mean of all foreground rows; see the counterexample.) -/
theorem lead_midpoint_of_min_max (col : List Bool) (a b : ℕ)
    (ha : (foregroundRows col).head? = some a)
    (hb : (foregroundRows col).getLast? = some b) :
    repRow col = some ((a + b) / 2) ∧
    a ∈ foregroundRows col ∧ b ∈ foregroundRows col ∧
    ∀ r ∈ foregroundRows col, a ≤ r ∧ r ≤ b := by
  have hmin := fgRowsAux_head_min col 0 a ha
  have hmax := fgRowsAux_getLast_max col 0 b hb
  refine ⟨by simp [repRow, ha, hb], hmin.1, hmax.1, ?_⟩
  intro r hr
  exact ⟨hmin.2 r hr, hmax.2 r hr⟩

/-- Claim C5, witness at a concrete column. -/
theorem lead_midpoint_of_min_max_witness :
    repRow [false, true, true] = some ((1 + 2) / 2) ∧
    1 ∈ foregroundRows [false, true, true] ∧ 2 ∈ foregroundRows [false, true, true] ∧
    ∀ r ∈ foregroundRows [false, true, true], 1 ≤ r ∧ r ≤ 2 :=
  lead_midpoint_of_min_max [false, true, true] 1 2 (by decide) (by decide)

/-- Claim C5, counterexample to the claim as stated: on a column whose
foreground rows are 0, 1, 2 and 9, the `DigitalizeDialog.digitalize_selected`
digitizer produces the mean 3, which is neither `(0 + 9) / 2 = 9/2` nor its
integer truncation 4 (produced by `digitalize_lead`) — so "the digitizer"
does not always use the min/max midpoint. -/
theorem dialog_mean_not_midpoint :
    meanRow [true, true, true, false, false, false, false, false, false, true] = some 3 ∧
    repRow [true, true, true, false, false, false, false, false, false, true] = some 4 ∧
    (3 : ℚ) ≠ 9 / 2 ∧ (3 : ℚ) ≠ 4 := by
  have hfg : foregroundRows [true, true, true, false, false, false, false, false, false, true]
      = [0, 1, 2, 9] := by decide
  refine ⟨?_, by decide, by norm_num, by norm_num⟩
  rw [meanRow, hfg]
  norm_num

/-- A column without foreground pixels yields no representative row. -/
theorem repRow_none_of_empty (col : List Bool) (h : foregroundRows col = []) :
    repRow col = none := by
  simp [repRow, h]

/-- If no column has foreground pixels, the column loop emits nothing. -/
theorem digitalizeGo_eq_nil (H : ℕ) : ∀ (cols : List (List Bool)) (x0 : ℕ),
    (∀ col ∈ cols, foregroundRows col = []) → digitalizeGo H cols x0 = [] := by
  intro cols
  induction cols with
  | nil => intro x0 _; rfl
  | cons c rest ih =>
    intro x0 h
    have hc : repRow c = none := repRow_none_of_empty c (h c (by simp))
    simp only [digitalizeGo, hc]
    exact ih (x0 + 1) (fun col hm => h col (List.mem_cons_of_mem _ hm))

/-- A column whose only foreground row is `r` has representative row `r`. -/
theorem repRow_of_single (col : List Bool) (r : ℕ) (h : foregroundRows col = [r]) :
    repRow col = some r := by
  have h2 : (r + r) / 2 = r := by omega
  simp [repRow, h, h2]

/-- The column loop on a mask whose only foreground pixel sits in the column
at position `i` emits exactly one sample, for that column. -/
theorem digitalizeGo_single (H : ℕ) : ∀ (cols : List (List Bool)) (x0 i r : ℕ)
    (col : List Bool), cols.get? i = some col → foregroundRows col = [r] →
    (∀ j colj, cols.get? j = some colj → j ≠ i → foregroundRows colj = []) →
    digitalizeGo H cols x0 = [columnSample (x0 + i) r H] := by
  intro cols
  induction cols with
  | nil => intro x0 i r col h _ _; simp at h
  | cons c rest ih =>
    intro x0 i r col hget hfg hothers
    cases i with
    | zero =>
      have hc : c = col := by simpa using hget
      subst hc
      have hrep : repRow c = some r := repRow_of_single c r hfg
      have hrest : digitalizeGo H rest (x0 + 1) = [] := by
        apply digitalizeGo_eq_nil
        intro colj hm
        rcases List.mem_iff_get?.mp hm with ⟨j, hj⟩
        exact hothers (j + 1) colj (by simpa using hj) (by omega)
      simp [digitalizeGo, hrep, hrest]
    | succ n =>
      have hc0 : foregroundRows c = [] := hothers 0 c rfl (by omega)
      have hrep : repRow c = none := repRow_none_of_empty c hc0
      have hrec := ih (x0 + 1) n r col (by simpa using hget) hfg
        (fun j colj hj hne => hothers (j + 1) colj (by simpa using hj) (by omega))
      have hx : x0 + 1 + n = x0 + (n + 1) := by omega
      rw [hx] at hrec
      simp only [digitalizeGo, hrep]
      exact hrec

/-- Claim C6. The two reference postconditions of the `digitalize_lead`
extraction: an all-background mask yields the empty sequence, and a mask of
height `H` with exactly one foreground pixel, at row `r` of the column at
position `x`, yields exactly the one-entry sequence
`(x · 0.01, 1 − 2·r/H)` (the code's `max_amplitude = 1`,
`min_amplitude = −1`, `time_scale = 0.01`). -/
theorem digitize_reference_postconditions (cols : List (List Bool)) (H : ℕ) :
    ((∀ col ∈ cols, foregroundRows col = []) → digitalizeLead cols H = []) ∧
    (∀ x r col, cols.get? x = some col → foregroundRows col = [r] →
      (∀ j colj, cols.get? j = some colj → j ≠ x → foregroundRows colj = []) →
      digitalizeLead cols H = [((x : ℚ) * (1 / 100), 1 - 2 * ((r : ℚ) / (H : ℚ)))]) := by
  constructor
  · intro h
    exact digitalizeGo_eq_nil H cols 0 h
  · intro x r col hget hfg hothers
    have hsingle := digitalizeGo_single H cols 0 x r col hget hfg hothers
    rw [digitalizeLead, hsingle]
    have hx : 0 + x = x := by omega
    rw [hx]
    simp only [columnSample, maxAmplitude, minAmplitude, timeScale]
    norm_num

/-- Claim C6, witness: a 2-column mask of height 4 whose only foreground
pixel is at row 1 of column 1 digitizes to the single sample
`(1 · 0.01, 1 − 2·(1/4))`. -/
theorem digitize_reference_postconditions_witness :
    digitalizeLead [[false, false], [false, true, false, false]] 4
      = [((1 : ℚ) * (1 / 100), 1 - 2 * ((1 : ℚ) / (4 : ℚ)))] :=
  (digitize_reference_postconditions [[false, false], [false, true, false, false]] 4).2
    1 1 [false, true, false, false] rfl (by decide) (by
      intro j colj hj hne
      match j with
      | 0 =>
        have hc : colj = [false, false] := by simpa using hj.symm
        subst hc
        decide
      | 1 => exact absurd rfl hne
      | (n + 2) => simp at hj)

/-- A representative row is a valid row index of its column. -/
theorem repRow_lt_length (col : List Bool) (y : ℕ) (h : repRow col = some y) :
    y < col.length := by
  rcases ha : (foregroundRows col).head? with _ | a
  · simp [repRow, ha] at h
  · rcases hb : (foregroundRows col).getLast? with _ | b
    · simp [repRow, ha, hb] at h
    · have hy : (a + b) / 2 = y := by simpa [repRow, ha, hb] using h
      have hmin := fgRowsAux_head_min col 0 a ha
      have hmax := fgRowsAux_getLast_max col 0 b hb
      have hab : a ≤ b := hmax.2 a hmin.1
      have hbl : b < 0 + col.length := mem_fgRowsAux_ub col 0 b hmax.1
      omega

/-- Every emitted sample comes from some column's representative row. -/
theorem mem_digitalizeGo (H : ℕ) : ∀ (cols : List (List Bool)) (x0 : ℕ) (p : ℚ × ℚ),
    p ∈ digitalizeGo H cols x0 →
    ∃ x y col, col ∈ cols ∧ repRow col = some y ∧ p = columnSample x y H := by
  intro cols
  induction cols with
  | nil => intro x0 p h; simp [digitalizeGo] at h
  | cons c rest ih =>
    intro x0 p h
    rcases hrep : repRow c with _ | y
    · simp only [digitalizeGo, hrep] at h
      rcases ih (x0 + 1) p h with ⟨x, y, col, hcol, hy, hp⟩
      exact ⟨x, y, col, List.mem_cons_of_mem _ hcol, hy, hp⟩
    · simp only [digitalizeGo, hrep] at h
      rcases List.mem_cons.mp h with h1 | h1
      · exact ⟨x0, y, c, List.mem_cons_self _ _, hrep, h1⟩
      · rcases ih (x0 + 1) p h1 with ⟨x, y2, col, hcol, hy, hp⟩
        exact ⟨x, y2, col, List.mem_cons_of_mem _ hcol, hy, hp⟩

/-- Claim C10. For every mask whose columns all have height `H`, every
amplitude emitted by the `digitalize_lead` extraction (with
`max_amplitude = 1`, `min_amplitude = −1`) lies in the half-open interval
(−1, 1]: the representative row is between 0 and H−1, so `1 − 2·row/H` is at
most 1 and strictly greater than −1. -/
theorem amplitudes_in_range (cols : List (List Bool)) (H : ℕ)
    (hlen : ∀ col ∈ cols, col.length = H) :
    ∀ p ∈ digitalizeLead cols H, -1 < p.2 ∧ p.2 ≤ 1 := by
  intro p hp
  rcases mem_digitalizeGo H cols 0 p hp with ⟨x, y, col, hcol, hrep, hpe⟩
  have hyH : y < H := by
    have hl := repRow_lt_length col y hrep
    rw [hlen col hcol] at hl
    exact hl
  have hH : (0 : ℚ) < (H : ℚ) := by
    have h0 : 0 < H := by omega
    exact_mod_cast h0
  have hdiv1 : ((y : ℚ) / (H : ℚ)) < 1 := by
    rw [div_lt_one hH]
    exact_mod_cast hyH
  have hdiv0 : (0 : ℚ) ≤ ((y : ℚ) / (H : ℚ)) := by positivity
  rw [hpe]
  constructor
  · show (-1 : ℚ) < maxAmplitude - (maxAmplitude - minAmplitude) * ((y : ℚ) / (H : ℚ))
    rw [maxAmplitude, minAmplitude]
    linarith
  · show maxAmplitude - (maxAmplitude - minAmplitude) * ((y : ℚ) / (H : ℚ)) ≤ 1
    rw [maxAmplitude, minAmplitude]
    linarith

/-- Claim C10, witness: the single-pixel mask of height 1 produces the
amplitude 1, which lies in (−1, 1]. -/
theorem amplitudes_in_range_witness :
    -1 < (columnSample 0 0 1).2 ∧ (columnSample 0 0 1).2 ≤ 1 :=
  amplitudes_in_range [[true]] 1 (by decide) (columnSample 0 0 1)
    (by simp [digitalizeLead, digitalizeGo, repRow, foregroundRows, fgRowsAux])

/-! ### Hit test (claim C7) -/

/-- `List.find?` returns the match with the smallest index: everything at a
smaller index fails the test. -/
theorem find?_earliest {α : Type} (p : α → Bool) :
    ∀ (l : List α) (a : α), l.find? p = some a →
    ∃ i, l.get? i = some a ∧ p a = true ∧
      ∀ j b, j < i → l.get? j = some b → p b = false := by
  intro l
  induction l with
  | nil => intro a h; simp at h
  | cons c rest ih =>
    intro a h
    by_cases hc : p c = true
    · rw [List.find?_cons_of_pos _ hc] at h
      injection h with h
      subst h
      exact ⟨0, rfl, hc, fun j b hj _ => absurd hj (by omega)⟩
    · rw [List.find?_cons_of_neg _ (by simpa using hc)] at h
      rcases ih a h with ⟨i, h1, h2, h3⟩
      refine ⟨i + 1, by simpa using h1, h2, ?_⟩
      intro j b hj hb
      cases j with
      | zero =>
        have hbc : b = c := by simpa using hb.symm
        subst hbc
        simpa using hc
      | succ j' => exact h3 j' b (by omega) (by simpa using hb)

/-- Claim C7, amended. The mouse-press hit test returns the FIRST-drawn
(earliest in insertion order) rectangle containing the click point: the
returned rectangle contains the point and every rectangle drawn before it
does not. When no rectangle contains the point, the press changes nothing
and starts a new draw gesture. -/
theorem hit_test_first_drawn (rects : List Region) (px py : ℚ) :
    (∀ r, hitRect rects px py = some r →
      containsPt r px py = true ∧
      ∃ i, rects.get? i = some r ∧
        ∀ j q, j < i → rects.get? j = some q → containsPt q px py = false) ∧
    (hitRect rects px py = none →
      (∀ r ∈ rects, containsPt r px py = false) ∧
      ∀ s : ECGState, s.rectangles = rects → clickPressResult s px py = (s, true)) := by
  constructor
  · intro r h
    rcases find?_earliest (fun q => containsPt q px py) rects r h with ⟨i, h1, h2, h3⟩
    exact ⟨h2, i, h1, h3⟩
  · intro h
    refine ⟨fun r hr => ?_, fun s hs => ?_⟩
    · have hn := List.find?_eq_none.mp h r hr
      simpa using hn
    · rw [clickPressResult, hs, h]

/-- Claim C7, witness at a one-rectangle list. -/
theorem hit_test_first_drawn_witness :
    containsPt ⟨0, 0, 4, 4, "A"⟩ 2 2 = true ∧
    ∃ i, [(⟨0, 0, 4, 4, "A"⟩ : Region)].get? i = some ⟨0, 0, 4, 4, "A"⟩ ∧
      ∀ j q, j < i → [(⟨0, 0, 4, 4, "A"⟩ : Region)].get? j = some q →
        containsPt q 2 2 = false :=
  (hit_test_first_drawn [⟨0, 0, 4, 4, "A"⟩] 2 2).1 ⟨0, 0, 4, 4, "A"⟩ (by decide)

/-- Claim C7, counterexample to the claim as stated: the point (2,2) lies in
both the first-drawn rectangle "A" and the last-drawn rectangle "B", but the
hit test returns "A" (the earliest, not the topmost), and the click deletes
"A" leaving ["B"]. -/
theorem hit_test_counterexample :
    hitRect [⟨0, 0, 4, 4, "A"⟩, ⟨0, 0, 10, 10, "B"⟩] 2 2 = some ⟨0, 0, 4, 4, "A"⟩ ∧
    containsPt ⟨0, 0, 10, 10, "B"⟩ 2 2 = true ∧
    (⟨0, 0, 4, 4, "A"⟩ : Region) ≠ ⟨0, 0, 10, 10, "B"⟩ ∧
    (applyOps initState [ECGOp.addRegion ⟨0, 0, 4, 4, "A"⟩,
        ECGOp.addRegion ⟨0, 0, 10, 10, "B"⟩,
        ECGOp.clickPress 2 2]).rectangles = [⟨0, 0, 10, 10, "B"⟩] := by
  decide

/-! ### Background separation (claim C8) -/

/-- Claim C8, amended. `remove_background` is a per-pixel two-level
transform: every pixel whose HSV triple lies inside the inclusive bounds
(0,0,0)–(180,255,220) becomes pure black, every other pixel becomes pure
white, and so its whole output raster holds only pure-black and pure-white
pixels. The separation step inside `DigitalizeDialog.digitalize_selected`
shares only half of this: out-of-range pixels become pure white, but
in-range pixels KEEP their original BGR value. -/
theorem background_separation_two_level (hsv bgr : ℕ × ℕ × ℕ)
    (raster : List (List (ℕ × ℕ × ℕ))) :
    (inRangeHSV lowerBlack upperBlack hsv = true → removeBgPixel hsv = (0, 0, 0)) ∧
    (inRangeHSV lowerBlack upperBlack hsv = false → removeBgPixel hsv = (255, 255, 255)) ∧
    (∀ row ∈ removeBg raster, ∀ p ∈ row, p = (0, 0, 0) ∨ p = (255, 255, 255)) ∧
    (inRangeHSV lowerBlack upperBlack hsv = true → digSelectPixel bgr hsv = bgr) ∧
    (inRangeHSV lowerBlack upperBlack hsv = false →
      digSelectPixel bgr hsv = (255, 255, 255)) := by
  refine ⟨fun h => by simp [removeBgPixel, h], fun h => by simp [removeBgPixel, h], ?_,
    fun h => by simp [digSelectPixel, h], fun h => by simp [digSelectPixel, h]⟩
  intro row hrow p hp
  rcases List.mem_map.mp hrow with ⟨row0, _, hrow0⟩
  subst hrow0
  rcases List.mem_map.mp hp with ⟨q, _, hq⟩
  subst hq
  by_cases h : inRangeHSV lowerBlack upperBlack q = true
  · left; simp [removeBgPixel, h]
  · right; simp [removeBgPixel, h]

/-- Claim C8, witness: an in-range pixel becomes pure black under
`remove_background`. -/
theorem background_separation_two_level_witness :
    removeBgPixel (0, 0, 100) = (0, 0, 0) :=
  (background_separation_two_level (0, 0, 100) (0, 0, 0) []).1 (by decide)

/-- Claim C8, counterexample to the claim as stated: the mid-gray pixel with
BGR value (100,100,100) has the OpenCV HSV triple (0, 0, 100), which lies
inside the bounds, yet the separation step of
`DigitalizeDialog.digitalize_selected` leaves it (100,100,100) instead of
forcing it to pure black — that path is not the claimed two-level
transform. -/
theorem background_separation_counterexample :
    inRangeHSV lowerBlack upperBlack (0, 0, 100) = true ∧
    digSelectPixel (100, 100, 100) (0, 0, 100) = (100, 100, 100) ∧
    digSelectPixel (100, 100, 100) (0, 0, 100) ≠ (0, 0, 0) := by
  decide

/-! ### Export file naming (claim C9) -/

/-- Whatever name the `save_all_areas` collision loop returns is not already
present in the directory. -/
theorem saveAllLoop_fresh (existing : List String) (base : String) :
    ∀ (fuel counter : ℕ) (f : String),
      saveAllLoop existing base fuel counter = some f → f ∉ existing := by
  intro fuel
  induction fuel with
  | zero => intro counter f h; simp [saveAllLoop] at h
  | succ n ih =>
    intro counter f h
    simp only [saveAllLoop] at h
    split at h
    · exact ih (counter + 1) f h
    · rename_i hmem
      injection h with h
      subst h
      exact hmem

/-- Whatever file name the `on_save` collision loop returns is not already
present in the directory. -/
theorem onSaveLoop_fresh (existing : List String) (base : String) :
    ∀ (fuel count : ℕ) (u f : String),
      onSaveLoop existing base fuel count = some (u, f) → f ∉ existing := by
  intro fuel
  induction fuel with
  | zero => intro count u f h; simp [onSaveLoop] at h
  | succ n ih =>
    intro count u f h
    simp only [onSaveLoop] at h
    split at h
    · exact ih (count + 1) u f h
    · rename_i hmem
      injection h with h
      injection h with h1 h2
      rw [h2] at hmem
      exact hmem

/-- Claim C9, amended. Neither export path ever overwrites an existing
file: any name either loop settles on is absent from the directory. For
the same label exported twice, `save_all_areas` produces `lead.png` and then
`lead_1.png`, while `ObservationDialog.on_save` produces `lead.png` and then
`lead_copy1.png` (its retry suffix is `_copy<n>`, not `_<n>`). -/
theorem export_names_fresh :
    (∀ existing base f, saveAllName existing base = some f → f ∉ existing) ∧
    (∀ existing base u f, onSaveName existing base = some (u, f) → f ∉ existing) ∧
    saveAllName [] "lead" = some "lead.png" ∧
    saveAllName ["lead.png"] "lead" = some "lead_1.png" ∧
    onSaveName ["lead.png"] "lead" = some ("lead_copy1", "lead_copy1.png") := by
  refine ⟨?_, ?_, by decide, by decide, by decide⟩
  · intro existing base f h
    simp only [saveAllName] at h
    split at h
    · exact saveAllLoop_fresh existing base _ 1 f h
    · rename_i hmem
      injection h with h
      subst h
      exact hmem
  · intro existing base u f h
    simp only [onSaveName] at h
    split at h
    · exact onSaveLoop_fresh existing base _ 1 u f h
    · rename_i hmem
      injection h with h
      injection h with h1 h2
      rw [h2] at hmem
      exact hmem

/-- Claim C9, witness: the name chosen for the second export of "lead" by
`save_all_areas` is fresh. -/
theorem export_names_fresh_witness : "lead_1.png" ∉ ["lead.png"] :=
  export_names_fresh.1 ["lead.png"] "lead" "lead_1.png" (by decide)

/-- Claim C9, counterexample to the claim as stated: exporting the label
"lead" a second time through `ObservationDialog.on_save` produces
`lead_copy1.png`, not the claimed `lead_1.png`. -/
theorem export_names_counterexample :
    onSaveName ["lead.png"] "lead" = some ("lead_copy1", "lead_copy1.png") ∧
    ("lead_copy1.png" : String) ≠ "lead_1.png" := by
  decide

end MedicalApp
